import Mathlib

/-!
Verification development for the TIFF / BigTIFF reader core
(`src/format_in/`): a shallow embedding of its data model and operations,
together with theorems settling the specification claims about it.

Bytes are modelled as `Nat` (the reader only ever produces values below
256); machine-integer arithmetic in the source never overflows on the
inputs considered here, so `Nat` arithmetic coincides with it.
-/

/-! ## List helpers mirroring Rust slice/iterator combinators -/

/-- Models Rust `slice::chunks_exact(k)`: the `⌊len / k⌋` complete
chunks of width `k`, the remainder dropped.  (Rust panics on `k = 0`;
call sites below guard that case explicitly.) -/
def chunksExact (k : Nat) (l : List Nat) : List (List Nat) :=
  (List.range (l.length / k)).map (fun i => (l.drop (i * k)).take k)

/-- Models Rust `Iterator::step_by(n)`: elements at positions
`0, n, 2n, …` of the list.  (Rust panics on `n = 0`; call sites below
only use `n ≥ 1`.) -/
def stepBy {α : Type} (n : Nat) (l : List α) : List α :=
  (List.range l.length).filterMap (fun i => if i % n = 0 then l.get? i else none)

/-- Models `buff.get_mut(curr..curr+len).map(|a| a.fill(v))`: fill the
half-open range with `v` when it lies inside the buffer, otherwise leave
the buffer unchanged (the `get_mut` returns `None` and the `map` is a
no-op). -/
def writeFill (buff : List Nat) (curr len v : Nat) : List Nat :=
  if curr + len ≤ buff.length then
    buff.take curr ++ List.replicate len v ++ buff.drop (curr + len)
  else buff

/-- Overwrite `buff` from position `curr` with `data` (only used when the
write fits). -/
def writeSlice (buff : List Nat) (curr : Nat) (data : List Nat) : List Nat :=
  buff.take curr ++ data ++ buff.drop (curr + data.length)

/-! ## Compression (src/format_in/tiff/compression.rs) -/

/-- Embeds the Rust enum `Compression`. -/
inductive Compression where
  | None
  | CCITT
  | PackBits
deriving DecidableEq

/-- Embeds `Compression::from_short`. -/
def Compression.from_short (val : Nat) : Option Compression :=
  match val with
  | 1 => some Compression.None
  | 2 => some Compression.CCITT
  | 32773 => some Compression.PackBits
  | _ => none

/-- The loop of `Compression::unpackbits_stream` (compression.rs 25-56).
`input` is the unread suffix of the stream (`read_byte` = head,
`available() != 0` = the list is nonempty, the bulk `read` consumes a
prefix).  `fuel` bounds the number of loop iterations; every iteration
consumes at least one input byte, so any `fuel ≥ input.length` computes
the exact result of the Rust loop (`unpackbits_go_fuel_eq` below).
`none` models the `Err` propagated when the `read_byte()?` for a run's
data byte hits end of input.  In the literal branch the source discards
the result of `istream.read`, so a write that does not fit the output
buffer, or a read past the end of the input, leaves buffer and input
pointer unchanged while `curr_byte_idx` still advances. -/
def unpackbits_go : Nat → List Nat → List Nat → Nat → Nat → Option (List Nat)
  | 0, input, buff, curr, expected =>
      if curr < expected ∧ input ≠ [] then none else some buff
  | _ + 1, [], buff, _, _ => some buff
  | fuel + 1, byte :: rest, buff, curr, expected =>
      if expected ≤ curr then some buff
      else if byte = 128 then
        unpackbits_go fuel rest buff curr expected
      else if 128 < byte then
        match rest with
        | [] => none
        | d :: rest2 =>
            unpackbits_go fuel rest2 (writeFill buff curr (256 - byte + 1) d)
              (curr + (256 - byte + 1)) expected
      else if curr + (byte + 1) ≤ buff.length ∧ byte + 1 ≤ rest.length then
        unpackbits_go fuel (rest.drop (byte + 1))
          (writeSlice buff curr (rest.take (byte + 1))) (curr + (byte + 1)) expected
      else
        unpackbits_go fuel rest buff (curr + (byte + 1)) expected

/-- The decoder loop entered with output index `curr`. -/
def unpackbits_loop (input buff : List Nat) (curr expected : Nat) : Option (List Nat) :=
  unpackbits_go input.length input buff curr expected

/-- Embeds `Compression::unpackbits_stream` (compression.rs 25-56):
decode `input` into the caller-supplied buffer `buff`, stopping when
`expected` output bytes have been produced or the input is exhausted. -/
def unpackbits_stream (input buff : List Nat) (expected : Nat) : Option (List Nat) :=
  unpackbits_loop input buff 0 expected

/-- The PackBits scenario input of spec §8 (compression.rs test). -/
def c5Input : List Nat :=
  [0xFE, 0xAA, 0x02, 0x80, 0x00, 0x2A, 0xFD, 0xAA, 0x03, 0x80, 0x00, 0x2A, 0x22, 0xF7, 0xAA]

/-- The expected 24-byte decode of `c5Input`. -/
def c5Output : List Nat :=
  [0xAA, 0xAA, 0xAA, 0x80, 0x00, 0x2A, 0xAA, 0xAA, 0xAA, 0xAA, 0x80, 0x00, 0x2A, 0x22,
   0xAA, 0xAA, 0xAA, 0xAA, 0xAA, 0xAA, 0xAA, 0xAA, 0xAA, 0xAA]

/-! ## IFD data model (src/format_in/tiff/ifd.rs) -/

/-- Embeds the Rust enum `Tag` (ifd.rs 70-89). -/
inductive Tag where
  | ImageWidth
  | ImageLength
  | BitsPerSample
  | Compression
  | PhotometricInterpretation
  | FillOrder
  | StripOffsets
  | Orientation
  | SamplesPerPixel
  | RowsPerStrip
  | StripByteCounts
  | XResolution
  | YResolution
  | PlanarConfiguration
  | ResolutionUnit
  | ExtraSamples
  | SampleFormat
  | Other
deriving DecidableEq

/-- Embeds `Tag::from_short` (ifd.rs 92-113); the wildcard arm maps every
unrecognized code to `Other`, so the result is never `none`. -/
def Tag.from_short (val : Nat) : Option Tag :=
  match val with
  | 256 => some Tag.ImageWidth
  | 257 => some Tag.ImageLength
  | 258 => some Tag.BitsPerSample
  | 259 => some Tag.Compression
  | 262 => some Tag.PhotometricInterpretation
  | 266 => some Tag.FillOrder
  | 273 => some Tag.StripOffsets
  | 274 => some Tag.Orientation
  | 277 => some Tag.SamplesPerPixel
  | 278 => some Tag.RowsPerStrip
  | 279 => some Tag.StripByteCounts
  | 282 => some Tag.XResolution
  | 283 => some Tag.YResolution
  | 284 => some Tag.PlanarConfiguration
  | 296 => some Tag.ResolutionUnit
  | 338 => some Tag.ExtraSamples
  | 339 => some Tag.SampleFormat
  | _ => some Tag.Other

/-- Embeds the Rust enum `Type` (ifd.rs 121-129); named `Ty` because
`Type` is reserved in Lean. -/
inductive Ty where
  | BYTE
  | ASCII
  | SHORT
  | LONG
  | RATIONAL
  | UNDEFINED
  | DOUBLE
deriving DecidableEq

/-- Embeds `Type::from_short` (ifd.rs 132-143). -/
def Ty.from_short (val : Nat) : Option Ty :=
  match val with
  | 1 => some Ty.BYTE
  | 2 => some Ty.ASCII
  | 3 => some Ty.SHORT
  | 4 => some Ty.LONG
  | 5 => some Ty.RATIONAL
  | 7 => some Ty.UNDEFINED
  | 16 => some Ty.DOUBLE
  | _ => none

/-- Embeds the Rust enum `Datum` (ifd.rs 150-159); the `STR` payload is
the list of character codes of the Rust `String`. -/
inductive Datum where
  | U8 (v : List Nat)
  | STR (v : List Nat)
  | U16 (v : List Nat)
  | U32 (v : List Nat)
  | U64 (v : List Nat)
  | RAT (v : List (Nat × Nat))
deriving DecidableEq

/-- Embeds the Rust struct `Entry` (ifd.rs 50-56); `Sum.inl` is
`Either::Left` (an absolute payload offset), `Sum.inr` is
`Either::Right` (an inlined `Datum`). -/
structure Entry where
  tag : Tag
  kind : Ty
  count : Nat
  offset_or_datum : Sum Nat Datum
deriving DecidableEq

/-- Embeds the Rust struct `IFD` (ifd.rs 5-9); the `HashMap<Tag, Entry>`
is modelled as its lookup function. -/
structure IFD where
  next_ifd_offset : Nat
  entries : Tag → Option Entry

/-- Embeds `IFD::new` (ifd.rs 12-23): insert every entry of the vector
into an empty map keyed by its tag (a `HashMap::insert` replaces any
previous binding of the same key). -/
def IFD.new (entry_vec : List Entry) (next_ifd_offset : Nat) : IFD :=
  { next_ifd_offset := next_ifd_offset,
    entries := entry_vec.foldl (fun m a => fun t => if t = a.tag then some a else m t)
      (fun _ => none) }

/-- Embeds `IFD::insert_entry` (ifd.rs 32-34). -/
def IFD.insert_entry (ifd : IFD) (entry : Entry) : IFD :=
  { ifd with entries := fun t => if t = entry.tag then some entry else ifd.entries t }

/-- Embeds `IFD::get_entry` (ifd.rs 36-38). -/
def IFD.get_entry (ifd : IFD) (tag : Tag) : Option Entry :=
  ifd.entries tag

/-- Embeds `IFD::size_of` (ifd.rs 40-47). -/
def IFD.size_of (kind : Ty) (count : Nat) : Nat :=
  match kind with
  | Ty.ASCII | Ty.BYTE | Ty.UNDEFINED => 1 * count
  | Ty.SHORT => 2 * count
  | Ty.LONG => 4 * count
  | Ty.RATIONAL | Ty.DOUBLE => 8 * count

/-! ## Random-access input stream

Modelled from the spec: `RandomAccessInputStream` lives in the external
crate `ome_common_rs`, not under `src/`; §4.1 of the spec defines it as a
byte-addressable stream over a seekable source with a byte-order flag and
a file pointer.  `data` is the whole underlying byte source, `pos` the
file pointer, `isLE` the byte-order flag, `marked` the position saved by
`mark` and restored by `reset`.  Integer reads consume exactly 2/4/8
bytes and fail (`none`, kind `UnexpectedEof`) when the source is too
short; bulk reads are all-or-nothing; seeking past EOF is allowed. -/

structure RAIS where
  data : List Nat
  pos : Nat
  isLE : Bool
  marked : Nat
deriving DecidableEq

/-- Modelled from the spec: `read_byte` consumes one byte, failing at EOF. -/
def RAIS.read_byte (s : RAIS) : Option (Nat × RAIS) :=
  match s.data.get? s.pos with
  | some b => some (b, { s with pos := s.pos + 1 })
  | none => none

/-- Modelled from the spec: `read_char` returns the next byte as an
ASCII character code. -/
def RAIS.read_char (s : RAIS) : Option (Nat × RAIS) :=
  s.read_byte

/-- Modelled from the spec: endian-aware 16-bit read. -/
def RAIS.read_short (s : RAIS) : Option (Nat × RAIS) := do
  let (b0, s) ← s.read_byte
  let (b1, s) ← s.read_byte
  some (if s.isLE then b0 + 256 * b1 else 256 * b0 + b1, s)

/-- Modelled from the spec: endian-aware 32-bit read. -/
def RAIS.read_u32 (s : RAIS) : Option (Nat × RAIS) := do
  let (b0, s) ← s.read_byte
  let (b1, s) ← s.read_byte
  let (b2, s) ← s.read_byte
  let (b3, s) ← s.read_byte
  some (if s.isLE then b0 + 256 * (b1 + 256 * (b2 + 256 * b3))
        else b3 + 256 * (b2 + 256 * (b1 + 256 * b0)), s)

/-- Modelled from the spec: absolute seek (allowed past EOF). -/
def RAIS.seek_abs (s : RAIS) (off : Nat) : RAIS :=
  { s with pos := off }

/-- Modelled from the spec: skip `n` bytes. -/
def RAIS.skip_bytes (s : RAIS) (n : Nat) : RAIS :=
  { s with pos := s.pos + n }

/-- Modelled from the spec: save the current position (used by
`init_stream` together with `reset`). -/
def RAIS.mark (s : RAIS) : RAIS :=
  { s with marked := s.pos }

/-- Modelled from the spec: restore the position saved by `mark`. -/
def RAIS.reset (s : RAIS) : RAIS :=
  { s with pos := s.marked }

/-- Modelled from the spec: `set_order` / `order`. -/
def RAIS.order (s : RAIS) (is_le : Bool) : RAIS :=
  { s with isLE := is_le }

/-! ## TIFF parser (src/format_in/tiff/tiff_parser.rs) -/

/-- Embeds `TiffParser::init_stream` (tiff_parser.rs 39-62): recognize
the `II`/`MM` byte-order mark (codes 73/77), set the stream order, read
the 16-bit magic (42 classic, 43 BigTIFF), then read a 32-bit first-IFD
offset.  Note the source reads a 32-bit offset and consumes no reserved
fields even in the BigTIFF case.  Returns `(is_big_tiff, first_offset)`
and the stream (whose position is restored by `reset`). -/
def init_stream (s : RAIS) : Option ((Bool × Nat) × RAIS) := do
  let s := s.mark
  let s := s.seek_abs 0
  let (c1, s) ← s.read_char
  let (c2, s) ← s.read_char
  let is_le ← (match c1, c2 with
    | 73, 73 => some true
    | 77, 77 => some false
    | _, _ => none)
  let s := s.order is_le
  let (magic, s) ← s.read_short
  let is_bt ← (match magic with
    | 43 => some true
    | 42 => some false
    | _ => none)
  let (first_offset, s) ← s.read_u32
  let s := s.reset
  some ((is_bt, first_offset), s)

/-- Reads `count` values with the given primitive reader, in order; used
to embed the `(0..count).map(...).collect()` / `sequence` pattern of
`TiffParser::read_datum` (tiff_parser.rs 64-73, 159-181). -/
def read_count (reader : RAIS → Option (Nat × RAIS)) : Nat → RAIS → Option (List Nat × RAIS)
  | 0, s => some ([], s)
  | n + 1, s => do
    let (v, s) ← reader s
    let (rest, s) ← read_count reader n s
    some (v :: rest, s)

/-- Reads `count` rationals, each a pair of 32-bit reads
(tiff_parser.rs 175-179). -/
def read_rationals : Nat → RAIS → Option (List (Nat × Nat) × RAIS)
  | 0, s => some ([], s)
  | n + 1, s => do
    let (a, s) ← s.read_u32
    let (b, s) ← s.read_u32
    let (rest, s) ← read_rationals n s
    some ((a, b) :: rest, s)

/-- Embeds `TiffParser::read_datum` (tiff_parser.rs 159-181).  The source
match covers only `BYTE`, `SHORT`, `LONG`, `ASCII` and `RATIONAL`;
`UNDEFINED` and `DOUBLE` have no arm and are modelled as failures. -/
def read_datum (kind : Ty) (count : Nat) (s : RAIS) : Option (Datum × RAIS) :=
  match kind with
  | Ty.BYTE => (read_count RAIS.read_byte count s).map (fun p => (Datum.U8 p.1, p.2))
  | Ty.SHORT => (read_count RAIS.read_short count s).map (fun p => (Datum.U16 p.1, p.2))
  | Ty.LONG => (read_count RAIS.read_u32 count s).map (fun p => (Datum.U32 p.1, p.2))
  | Ty.ASCII => (read_count RAIS.read_char count s).map (fun p => (Datum.STR p.1, p.2))
  | Ty.RATIONAL => (read_rationals count s).map (fun p => (Datum.RAT p.1, p.2))
  | Ty.UNDEFINED => none
  | Ty.DOUBLE => none

/-- The entry loop of `TiffParser::read_ifd` (tiff_parser.rs 79-108):
for each entry read tag(u16), kind(u16), count(u32); payloads of more
than 4 bytes are stored as a 32-bit offset (`Sum.inl`), smaller payloads
are parsed inline (`Sum.inr`) followed by `4 - n` padding bytes. -/
def read_entries : Nat → RAIS → Option (List Entry × RAIS)
  | 0, s => some ([], s)
  | n + 1, s => do
    let (tag_short, s) ← s.read_short
    match Tag.from_short tag_short with
    | none => none
    | some tag =>
      match s.read_short with
      | none => none
      | some (kind_short, s) =>
        match Ty.from_short kind_short with
        | none => none
        | some kind => do
          let (count, s) ← s.read_u32
          let n_bytes := IFD.size_of kind count
          if 4 < n_bytes then do
            let (off, s) ← s.read_u32
            let (rest, s) ← read_entries n s
            some (⟨tag, kind, count, Sum.inl off⟩ :: rest, s)
          else do
            let (datum, s) ← read_datum kind count s
            let s := s.skip_bytes (4 - n_bytes)
            let (rest, s) ← read_entries n s
            some (⟨tag, kind, count, Sum.inr datum⟩ :: rest, s)

/-- Embeds `TiffParser::read_ifd` (tiff_parser.rs 75-114): entry count
as u16, the entries, then the 32-bit next-IFD offset. -/
def read_ifd (s : RAIS) : Option (IFD × RAIS) := do
  let (n_entries, s) ← s.read_short
  let (entry_vec, s) ← read_entries n_entries s
  let (next_ifd_offset, s) ← s.read_u32
  some (IFD.new entry_vec next_ifd_offset, s)

/-- Embeds the Rust struct `TiffParser` (tiff_parser.rs 18-23). -/
structure TiffParser where
  istream : RAIS
  is_big_tiff : Bool
  bytes_per_entry : Nat
  first_ifd_offset : Nat
deriving DecidableEq

/-- Embeds `TiffParser::new` (tiff_parser.rs 26-37) over the file's
bytes (the fresh stream starts at position 0; its initial byte-order
flag is irrelevant because `init_stream` sets it before any
endian-sensitive read). -/
def TiffParser.new (file : List Nat) : Option TiffParser := do
  let istream : RAIS := ⟨file, 0, true, 0⟩
  let ((is_bt, first_offset), s) ← init_stream istream
  some ⟨s, is_bt, if is_bt then 16 else 12, first_offset⟩

/-- The `while next_offset != 0` loop of `TiffParser::n_ifds`
(tiff_parser.rs 117-129).  `fuel` bounds the number of loop iterations
inspected: `some (some n)` models `Ok(n)`, `some none` models an `Err`
from `read_ifd`, and `none` means the loop has not exited within `fuel`
iterations (the source has no cycle detection and no bound). -/
def n_ifds_go : Nat → RAIS → Nat → Nat → Option (Option Nat)
  | 0, _, _, _ => none
  | fuel + 1, s, next, count =>
    if next = 0 then some (some count)
    else
      match read_ifd (s.seek_abs next) with
      | none => some none
      | some (ifd2, s2) => n_ifds_go fuel s2 ifd2.next_ifd_offset (count + 1)

/-- Embeds `TiffParser::n_ifds` (tiff_parser.rs 117-129), with `fuel`
bounding the number of chain links inspected (see `n_ifds_go`). -/
def n_ifds (p : TiffParser) (fuel : Nat) : Option (Option Nat) :=
  match read_ifd (p.istream.seek_abs p.first_ifd_offset) with
  | none => some none
  | some (ifd, s) => n_ifds_go fuel s ifd.next_ifd_offset 1

/-- The `for j in 1..i+1` loop of `TiffParser::nth_ifd`
(tiff_parser.rs 135-142): walk one link per iteration, failing
(`IFD idx out of bounds`) when the next offset is 0. -/
def nth_ifd_go : Nat → RAIS → IFD → Option IFD
  | 0, _, curr => some curr
  | j + 1, s, curr =>
    if curr.next_ifd_offset = 0 then none
    else
      match read_ifd (s.seek_abs curr.next_ifd_offset) with
      | none => none
      | some (ifd2, s2) => nth_ifd_go j s2 ifd2

/-- Embeds `TiffParser::nth_ifd` (tiff_parser.rs 131-145). -/
def nth_ifd (p : TiffParser) (i : Nat) : Option IFD := do
  let (ifd, s) ← read_ifd (p.istream.seek_abs p.first_ifd_offset)
  nth_ifd_go i s ifd

/-- Modelled from the spec: `read_strip` calls
`Compression::unpackbits(bytes, expected_byte_count)` with two arguments,
but the only `unpackbits` under `src/` takes four (an iteration
mismatch); §4.4/§4.2 of the spec say the strip bytes are stream-decoded
into a zero-initialized row-aligned buffer of the expected length, which
is what this wrapper does using the in-repo stream decoder. -/
def unpackbits_expected (bytes : List Nat) (expected_byte_count : Nat) : Option (List Nat) :=
  unpackbits_stream bytes (List.replicate expected_byte_count 0) expected_byte_count

/-- Embeds `TiffParser::read_strip` (tiff_parser.rs 262-296).  The tag
accessors it calls (`strip_offsets`, `strip_byte_counts`,
`rows_per_strip`, `image_length`, `image_width`, `compression`) are
passed as the values they return for the chosen IFD, and `file` is the
underlying byte source read by `istream.read(&mut bytes, offset)`.
`none` models every `Err` (strip index out of range, short read) as well
as the `todo!()` panic of the CCITT arm. -/
def read_strip (strip_offsets strip_byte_counts : List Nat)
    (rows_per_strip image_length image_width : Nat) (co : Compression)
    (file : List Nat) (strip_idx : Nat) (bytes_per_pixel : Nat) : Option (List Nat) := do
  let offset ← strip_offsets.get? strip_idx
  let strip_byte_count ← strip_byte_counts.get? strip_idx
  let strip_count := strip_byte_counts.length
  let row_count := if strip_idx = strip_count - 1
    then image_length % rows_per_strip else rows_per_strip
  let expected_byte_count := row_count * image_width * bytes_per_pixel
  let bytes ← if offset + strip_byte_count ≤ file.length
    then some ((file.drop offset).take strip_byte_count) else none
  match co with
  | Compression.PackBits => unpackbits_expected bytes expected_byte_count
  | Compression.CCITT => none
  | Compression.None => some bytes

/-! ## Window extractor (src/format_in/tiff_reader.rs, open_bytes) -/

/-- The geometry tags `open_bytes` reads from the selected IFD
(tiff_reader.rs 55-60): `image_width`, `bits_per_sample`,
`planar_configuration` and `rows_per_strip`. -/
structure IfdGeom where
  image_width : Nat
  bits_per_sample : List Nat
  planar_configuration : Nat
  rows_per_strip : Nat
deriving DecidableEq

/-- The strip indices visited by the loop of `open_bytes`
(tiff_reader.rs 73-79): `start_idx = y / rps`, `end_idx = (y + h) / rps`,
`for strip_idx in start_idx..end_idx + 1`. -/
def open_bytes_strip_indices (y h rows_per_strip : Nat) : List Nat :=
  List.range' (y / rows_per_strip)
    ((y + h) / rows_per_strip + 1 - y / rows_per_strip)

/-- Models the row slice `&row[lower_col..upper_col]`
(tiff_reader.rs 99): `none` is the Rust panic when the range exceeds the
row. -/
def sliceCols (lower_col upper_col : Nat) (row : List Nat) : Option (List Nat) :=
  if upper_col ≤ row.length then some ((row.drop lower_col).take (upper_col - lower_col))
  else none

/-- Embeds `TiffReader::open_bytes` (tiff_reader.rs 51-124).  `g` holds
the geometry tags read from the IFD selected by `origin.s`; `strips i`
is the content of the reused strip buffer after
`read_strip(&ifd, i, &mut buff)` (with `none` modelling its errors);
`x`, `y`, `c` are the origin coordinates (`z` and `t` are unused, as in
the source) and `h`, `w` the window size.  `none` models both `Err`
returns and panics (the `bits_per_sample[c]` index at line 58 and the
`chunks_exact(0)` calls, which the source reaches when a sample width is
below 8 bits or the row width is 0). -/
def open_bytes (g : IfdGeom) (strips : Nat → Option (List Nat))
    (x y c h w : Nat) : Option (List Nat) := do
  let iw := g.image_width
  let bits_per_sample := g.bits_per_sample
  let samples_per_pixel := bits_per_sample.length
  let bpsc ← bits_per_sample.get? c
  let bytes_per_sample := bpsc / 8
  let is_chunky := g.planar_configuration == 1
  let rows_per_strip := g.rows_per_strip
  let bytes_per_pixel ←
    if is_chunky then some (bits_per_sample.sum / 8)
    else (bits_per_sample.get? c).map (fun b => b / 8)
  if bytes_per_sample = 0 ∨ bytes_per_pixel * iw = 0 then none
  else
    (open_bytes_strip_indices y h rows_per_strip).foldlM (fun out strip_idx => do
      let s_idx := strip_idx * rows_per_strip
      let e_idx := (strip_idx + 1) * rows_per_strip
      let lower_idx := max s_idx y - s_idx
      let upper_idx := min e_idx (y + h) - s_idx
      let bytes_per_row := bytes_per_pixel * iw
      let lower_col := bytes_per_pixel * x
      let upper_col := lower_col + bytes_per_pixel * w
      let buff ← strips strip_idx
      let row_slices ← (((chunksExact bytes_per_row buff).drop lower_idx).take
        (upper_idx - lower_idx)).mapM (sliceCols lower_col upper_col)
      let rows := row_slices.flatten
      let bytes :=
        if is_chunky then
          (stepBy samples_per_pixel ((chunksExact bytes_per_sample rows).drop c)).flatten
        else
          (((chunksExact bytes_per_sample rows).drop (c * h * w)).take (h * w)).flatten
      pure (out ++ bytes)) []

/-! ## Concrete fixtures used by the claim theorems -/

/-- A 1-pixel-wide chunky image with unequal sample widths
`bits_per_sample = [8, 16]` and `rows_per_strip = 2`. -/
def g1 : IfdGeom := ⟨1, [8, 16], 1, 2⟩

/-- Strip content for `g1`: one strip of `bytes_per_row * rps = 3 * 2`
bytes. -/
def strips1 : Nat → Option (List Nat) :=
  fun i => if i = 0 then some [1, 2, 3, 4, 5, 6] else none

/-- A 1×16 8-bit grayscale image stored in a single strip
(`rows_per_strip = 16 = image_length`). -/
def g2 : IfdGeom := ⟨1, [8], 1, 16⟩

/-- Strip content for `g2`: only the single strip 0 exists; any other
strip index is a `read_strip` error. -/
def strips2 : Nat → Option (List Nat) :=
  fun i => if i = 0 then some (List.replicate 16 7) else none

/-- A 6-wide chunky RGB 16-bit image (`bps = [16,16,16]`) with
`rows_per_strip = 8`. -/
def g3 : IfdGeom := ⟨6, [16, 16, 16], 1, 8⟩

/-- Strip 0 content for `g3`: 8 rows of 36 bytes, byte at file position
`i` holding `i % 256`. -/
def c2Strip : List Nat := (List.range 288).map (fun i => i % 256)

/-- Strip oracle for `g3`. -/
def strips3 : Nat → Option (List Nat) :=
  fun i => if i = 0 then some c2Strip else none

/-- A 1-pixel-wide chunky image with `bps = [8, 16, 16]` (unequal
widths), `rows_per_strip = 2`. -/
def g4 : IfdGeom := ⟨1, [8, 16, 16], 1, 2⟩

/-- Strip 0 content for `g4`: 2 rows of 5 bytes, byte `i` holding `i`. -/
def strips4 : Nat → Option (List Nat) :=
  fun i => if i = 0 then some [0, 1, 2, 3, 4, 5, 6, 7, 8, 9] else none

/-- A classic little-endian TIFF whose single IFD (at offset 8, zero
entries) has `next_ifd_offset = 8`, pointing back at itself: a one-link
cycle in the IFD chain. -/
def cyclicFile : List Nat := [73, 73, 42, 0, 8, 0, 0, 0, 0, 0, 8, 0, 0, 0]

/-- The parser state `TiffParser::new` produces for `cyclicFile`. -/
def cyclicParser : TiffParser := ⟨⟨cyclicFile, 0, true, 0⟩, false, 12, 8⟩

/-- The stream state recurring in the `n_ifds` walk of `cyclicFile`:
position 14, just past the self-referencing IFD. -/
def cycS : RAIS := ⟨cyclicFile, 14, true, 0⟩

/-- The classic header of spec §8 scenario 2: `II 2A 00 08 00 00 00`. -/
def classicHeader : List Nat := [0x49, 0x49, 0x2A, 0x00, 0x08, 0x00, 0x00, 0x00]

/-- A canonical BigTIFF header: `MM`, magic 43, reserved 16-bit fields
8 and 0, then the 64-bit big-endian first-IFD offset 16. -/
def bigtiffHeader : List Nat :=
  [0x4D, 0x4D, 0x00, 0x2B, 0x00, 0x08, 0x00, 0x00,
   0x00, 0x00, 0x00, 0x00, 0x00, 0x00, 0x00, 0x10]

/-! ## Supporting lemmas -/

theorem unpackbits_go_fuel_eq :
    ∀ (fuel : Nat) (input buff : List Nat) (curr expected : Nat),
      input.length ≤ fuel →
      unpackbits_go fuel input buff curr expected = unpackbits_loop input buff curr expected := by
  intro fuel
  induction fuel using Nat.strong_induction_on with
  | _ fuel ih =>
    intro input buff curr expected hle
    match fuel, input with
    | 0, [] => rfl
    | 0, _ :: _ => simp at hle
    | fuel + 1, [] => simp [unpackbits_loop, unpackbits_go]
    | fuel + 1, byte :: rest =>
      have hrest : rest.length ≤ fuel := by
        simpa [Nat.succ_le_succ_iff] using hle
      show unpackbits_go (fuel + 1) (byte :: rest) buff curr expected
        = unpackbits_go (rest.length + 1) (byte :: rest) buff curr expected
      simp only [unpackbits_go]
      split
      · rfl
      · split
        · rw [ih fuel (Nat.lt_succ_self fuel) rest buff curr expected hrest,
            ih rest.length (Nat.lt_succ_of_le hrest) rest buff curr expected (Nat.le_refl _)]
        · split
          · cases rest with
            | nil => rfl
            | cons d rest2 =>
              dsimp only [List.length_cons]
              have h2 : rest2.length ≤ fuel :=
                Nat.le_trans (Nat.le_succ _) (by simpa using hrest)
              rw [ih fuel (Nat.lt_succ_self fuel) rest2 _ _ expected h2,
                ih (rest2.length + 1) (Nat.lt_succ_of_le (by simpa using hrest)) rest2 _ _
                  expected (Nat.le_succ _)]
          · split
            · have hd : (rest.drop (byte + 1)).length ≤ rest.length := by
                simp [List.length_drop]
              rw [ih fuel (Nat.lt_succ_self fuel) _ _ _ expected (Nat.le_trans hd hrest),
                ih rest.length (Nat.lt_succ_of_le hrest) _ _ _ expected hd]
            · rw [ih fuel (Nat.lt_succ_self fuel) rest buff _ expected hrest,
                ih rest.length (Nat.lt_succ_of_le hrest) rest buff _ expected (Nat.le_refl _)]

theorem ifd_new_foldl_get (l : List Entry) (m : Tag → Option Entry) (t : Tag) :
    (l.foldl (fun m a => fun t2 => if t2 = a.tag then some a else m t2) m) t
      = (l.reverse.find? (fun a => decide (a.tag = t))).or (m t) := by
  induction l generalizing m with
  | nil => simp
  | cons a l ih =>
    simp only [List.foldl_cons, List.reverse_cons]
    rw [ih, List.find?_append]
    cases hf : l.reverse.find? (fun a => decide (a.tag = t)) with
    | some e => simp [Option.or]
    | none =>
      by_cases hat : a.tag = t
      · subst hat
        simp [Option.or, List.find?]
      · have hta : ¬ t = a.tag := fun h => hat h.symm
        simp [Option.or, List.find?, hat, hta]

theorem n_ifds_go_cyclic (fuel : Nat) : ∀ count, n_ifds_go fuel cycS 8 count = none := by
  induction fuel with
  | zero => intro count; rfl
  | succ fuel ih => intro count; exact ih (count + 1)

/-! ## Claim theorems -/

/-- C1: the claim that for every well-formed file and valid window
request `open_bytes` returns exactly `h * w * (bits_per_sample[c] / 8)`
bytes fails on the code: on a chunky image with unequal sample widths
(`bps = [8, 16]`), the valid 1×1 request at the origin for channel 1
returns 0 bytes instead of the required 2, because the channel-selection
stride assumes uniform sample widths. -/
theorem c1_open_bytes_length_violated :
    open_bytes g1 strips1 0 0 1 1 1 = some []
    ∧ ([] : List Nat).length ≠ 1 * 1 * (16 / 8) := by decide

set_option maxRecDepth 4096 in
/-- C2: chunky channel selection.  The concrete RGB 16-bit scenario of
the claim does hold on the code (uniform widths): the request
`(x=4, y=4, c=1), h=2, w=2` on `g3` returns the 8 green-sample bytes of
pixels (5,5), (6,5), (5,6), (6,6) in file order.  But the general rule
fails for unequal widths: on `bps = [8, 16, 16]` with channel 1 the code
returns the bytes at offsets 2..4 of the pixel stride `[0,1,2,3,4]`,
while the claimed offset `Σ bps[0..c]/8 = 1` selects bytes 1..3. -/
theorem c2_chunky_substride_uniform_only :
    open_bytes g3 strips3 4 4 1 2 2 = some [170, 171, 176, 177, 206, 207, 212, 213]
    ∧ open_bytes g4 strips4 0 0 1 1 1 = some [2, 3]
    ∧ (([0, 1, 2, 3, 4] : List Nat).drop ((([8, 16, 16] : List Nat).take 1).sum / 8)).take
        (16 / 8) = [1, 2]
    ∧ ([2, 3] : List Nat) ≠ [1, 2] := by decide

/-- C3: the claim that `open_bytes` reads exactly the strips
`y / rps .. (y + h - 1) / rps` fails on the code, which ends the loop at
`(y + h) / rps`: for `y = 0, h = 16, rps = 16` the loop visits strips
`[0, 1]` although `(y + h - 1) / rps = 0`, and reading the whole of a
single-strip 1×16 image therefore fails (strip 1 does not exist) instead
of returning the image. -/
theorem c3_spurious_trailing_strip :
    open_bytes_strip_indices 0 16 16 = [0, 1]
    ∧ (0 + 16 - 1) / 16 = 0
    ∧ open_bytes g2 strips2 0 0 0 16 1 = none := by decide

/-- C4: the claim that `open_bytes` fails with `InvalidWindow` on
zero-sized windows fails on the code, which performs no window
validation: both an `h = 0` and a `w = 0` request succeed with an empty
byte vector. -/
theorem c4_no_window_validation :
    open_bytes g1 strips1 0 0 0 0 1 = some []
    ∧ open_bytes g1 strips1 0 0 0 1 0 = some [] := by decide

/-- C5: the PackBits stream decoder.  Conjuncts: (1) the concrete
scenario, decoding `c5Input` into a zero-initialized 24-byte buffer
yields `c5Output`; (2) control byte 128 is skipped; (3) a control byte
`b` with `129 ≤ b ≤ 255` reads one data byte and emits it `257 - b`
times; (4) a control byte `b ≤ 127` copies the next `b + 1` input bytes
verbatim; (5) the decoder stops with the buffer as soon as the output is
full or the input is exhausted. -/
theorem c5_unpackbits_stream_rules :
    (unpackbits_stream c5Input (List.replicate 24 0) 24 = some c5Output)
    ∧ (∀ (rest buff : List Nat) (curr expected : Nat), curr < expected →
        unpackbits_loop (128 :: rest) buff curr expected
          = unpackbits_loop rest buff curr expected)
    ∧ (∀ (b d : Nat) (rest buff : List Nat) (curr expected : Nat),
        128 < b → b ≤ 255 → curr < expected → curr + (257 - b) ≤ buff.length →
        unpackbits_loop (b :: d :: rest) buff curr expected
          = unpackbits_loop rest
              (buff.take curr ++ List.replicate (257 - b) d ++ buff.drop (curr + (257 - b)))
              (curr + (257 - b)) expected)
    ∧ (∀ (b : Nat) (rest buff : List Nat) (curr expected : Nat),
        b ≤ 127 → curr < expected → curr + (b + 1) ≤ buff.length → b + 1 ≤ rest.length →
        unpackbits_loop (b :: rest) buff curr expected
          = unpackbits_loop (rest.drop (b + 1))
              (buff.take curr ++ rest.take (b + 1) ++ buff.drop (curr + (b + 1)))
              (curr + (b + 1)) expected)
    ∧ (∀ (input buff : List Nat) (curr expected : Nat), expected ≤ curr ∨ input = [] →
        unpackbits_loop input buff curr expected = some buff) := by
  refine ⟨by decide, ?_, ?_, ?_, ?_⟩
  · intro rest buff curr expected h
    show unpackbits_go (rest.length + 1) (128 :: rest) buff curr expected = _
    simp only [unpackbits_go]
    rw [if_neg (Nat.not_le.mpr h), if_pos trivial]
    rfl
  · intro b d rest buff curr expected h1 h2 h3 h4
    have h5 : 256 - b + 1 = 257 - b := by omega
    show unpackbits_go ((rest.length + 1) + 1) (b :: d :: rest) buff curr expected = _
    simp only [unpackbits_go]
    rw [if_neg (Nat.not_le.mpr h3), if_neg (by omega : ¬ b = 128), if_pos h1]
    rw [h5]
    simp only [writeFill]
    rw [if_pos h4]
    rw [unpackbits_go_fuel_eq (rest.length + 1) rest _ _ _ (Nat.le_succ _)]
  · intro b rest buff curr expected hb h3 h4 h5
    show unpackbits_go (rest.length + 1) (b :: rest) buff curr expected = _
    simp only [unpackbits_go]
    rw [if_neg (Nat.not_le.mpr h3), if_neg (by omega : ¬ b = 128),
      if_neg (by omega : ¬ 128 < b), if_pos ⟨h4, h5⟩]
    simp only [writeSlice]
    have htk : (rest.take (b + 1)).length = b + 1 := by
      rw [List.length_take]
      omega
    rw [htk]
    rw [unpackbits_go_fuel_eq rest.length _ _ _ _ (by rw [List.length_drop]; omega)]
  · intro input buff curr expected h
    cases input with
    | nil => simp [unpackbits_loop, unpackbits_go]
    | cons a l =>
      rcases h with h | h
      · show unpackbits_go (l.length + 1) (a :: l) buff curr expected = some buff
        simp only [unpackbits_go]
        rw [if_pos h]
      · exact absurd h (by simp)

/-- C5 witness: the skip rule applied at control byte 128 with a
nonempty remainder and a non-full buffer. -/
theorem c5_unpackbits_stream_rules_w :
    unpackbits_loop [128, 1, 2] [0] 0 1 = unpackbits_loop [1, 2] [0] 0 1 :=
  c5_unpackbits_stream_rules.2.1 [1, 2] [0] 0 1 (by decide)

/-- C6: the claim that an output overrun from a single run or literal is
a fatal decode error fails on the code: a literal of 3 bytes and a run
of 4 bytes, each aimed at a 2-byte output buffer, both return success
(`Ok(())`, buffer untouched) because the `buff.get_mut(..)` overrun is
silently discarded. -/
theorem c6_packbits_overrun_silent_success :
    unpackbits_stream [2, 1, 2, 3] [0, 0] 2 = some [0, 0]
    ∧ unpackbits_stream [253, 7] [0, 0] 2 = some [0, 0] := by decide

/-- C7: header parsing.  The classic half of the claim holds: on
`II 2A 00 08 00 00 00` the code yields little-endian, classic, first IFD
at 8.  The BigTIFF half fails: on a canonical BigTIFF header
(`MM`, magic 43, reserved fields, 64-bit offset 16) the code reads a
32-bit big-endian offset from the reserved fields, yielding
`0x00080000 = 524288` instead of 16. -/
theorem c7_header_bigtiff_misparse :
    (init_stream ⟨classicHeader, 0, true, 0⟩).map (fun r => (r.1.1, r.1.2, r.2.isLE))
      = some (false, 8, true)
    ∧ (init_stream ⟨bigtiffHeader, 0, true, 0⟩).map (fun r => (r.1.1, r.1.2, r.2.isLE))
      = some (true, 524288, false)
    ∧ (524288 : Nat) ≠ 16 := by decide

/-- C8: the claim that `n_ifds` and `nth_ifd` terminate on cyclic IFD
chains with `MalformedIfdChain` fails on the code: on `cyclicFile`
(whose single IFD points back at itself) the `n_ifds` loop never exits —
for every iteration bound `fuel` it has produced neither `Ok` nor
`Err` — and `nth_ifd 5` happily follows the cycle and returns an IFD
instead of failing. -/
theorem c8_ifd_walk_unbounded :
    TiffParser.new cyclicFile = some cyclicParser
    ∧ (∀ fuel, n_ifds cyclicParser fuel = none)
    ∧ (nth_ifd cyclicParser 5).isSome = true := by
  refine ⟨by decide, fun fuel => ?_, by decide⟩
  show n_ifds_go fuel cycS 8 1 = none
  exact n_ifds_go_cyclic fuel 1

/-- C9: the claim that the last strip covers the full `rows_per_strip`
rows when `image_length` is a multiple of it fails on the code, which
always uses `image_length % rows_per_strip` for the last strip: with
`image_length = 32`, `rows_per_strip = 16`, a single PackBits strip
decodes into a buffer of `0 * image_width * bytes_per_pixel = 0` bytes
instead of the 16-row buffer the claim requires. -/
theorem c9_last_strip_zero_rows :
    read_strip [0] [4] 16 32 4 Compression.PackBits [2, 9, 9, 9] 0 1 = some []
    ∧ (16 : Nat) * 4 * 1 = 64 := by decide

/-- C10: the IFD entry map is last-write-wins.  Conjuncts: (1) for every
entry list, `IFD::new` maps a tag to the last entry bearing it in list
order (the first match in the reversed list); (2) `insert_entry`
replaces any existing entry with the same tag; (3) `insert_entry` leaves
every other tag unchanged, so `get_entry` never returns an earlier
duplicate. -/
theorem c10_ifd_last_write_wins :
    (∀ (l : List Entry) (off : Nat) (t : Tag),
        (IFD.new l off).get_entry t = l.reverse.find? (fun a => decide (a.tag = t)))
    ∧ (∀ (ifd : IFD) (e : Entry), (ifd.insert_entry e).get_entry e.tag = some e)
    ∧ (∀ (ifd : IFD) (e : Entry) (t : Tag), t ≠ e.tag →
        (ifd.insert_entry e).get_entry t = ifd.get_entry t) := by
  refine ⟨?_, ?_, ?_⟩
  · intro l off t
    simp only [IFD.new, IFD.get_entry]
    rw [ifd_new_foldl_get]
    cases l.reverse.find? (fun a => decide (a.tag = t)) <;> rfl
  · intro ifd e
    simp [IFD.insert_entry, IFD.get_entry]
  · intro ifd e t ht
    simp [IFD.insert_entry, IFD.get_entry, ht]

/-- C10 witness: inserting an `ImageWidth` entry into an empty IFD
leaves the (distinct) `ImageLength` lookup unchanged. -/
theorem c10_ifd_last_write_wins_w :
    ((IFD.new [] 0).insert_entry ⟨Tag.ImageWidth, Ty.SHORT, 1, Sum.inr (Datum.U16 [5])⟩).get_entry
        Tag.ImageLength
      = (IFD.new [] 0).get_entry Tag.ImageLength :=
  c10_ifd_last_write_wins.2.2 (IFD.new [] 0)
    ⟨Tag.ImageWidth, Ty.SHORT, 1, Sum.inr (Datum.U16 [5])⟩ Tag.ImageLength (by decide)
